import Mathlib

/-!
Shallow embedding of the simulation core of `src/main.rs` (a Game of Life
variant with a decaying `Dying` state) and proofs about it.

Modelling conventions:
* Rust `usize` values are `Nat`; arithmetic that can overflow a 64-bit
  machine word is taken modulo `2^64` (release-mode wrapping semantics).
* Rust `i32` values are `Int`; the cast `usize as i32` truncates to the low
  32 bits and reinterprets them as two's complement (`usizeToI32`).
* A `Vec` index that may be out of range (a Rust panic) is modelled with
  `Option`: `none` is a panic, so a fallible operation returns `Option`.
-/

set_option maxHeartbeats 1000000

set_option maxRecDepth 8000

namespace RustyLife

/-- `const CYCLES_TO_DIE: usize = 8` from `src/main.rs`. -/
def CYCLES_TO_DIE : Nat := 8

/-- `2^64`: usize arithmetic wraps modulo this (release-mode semantics). -/
def USIZE_MOD : Nat := 18446744073709551616

/-- The Rust cast `as i32` applied to a `usize`: truncate to the low 32 bits
and reinterpret as two's complement. -/
def usizeToI32 (n : Nat) : Int :=
  if n % 4294967296 < 2147483648 then ((n % 4294967296 : Nat) : Int)
  else ((n % 4294967296 : Nat) : Int) - 4294967296

/-- `enum CellState { Alive, Dying(usize), Dead }`. -/
inductive CellState where
  | Alive : CellState
  | Dying : Nat → CellState
  | Dead : CellState
  deriving DecidableEq

/-- `struct Cell { state: CellState, neighbor_count: usize }`. -/
structure Cell where
  state : CellState
  neighbor_count : Nat
  deriving DecidableEq

/-- `struct Board { generation, width, height, cells }`. -/
structure Board where
  generation : Nat
  width : Nat
  height : Nat
  cells : List Cell
  deriving DecidableEq

/-- `Cell::dead()`. -/
def Cell.dead : Cell := { state := CellState.Dead, neighbor_count := 0 }

/-- `Cell::alive()`. -/
def Cell.alive : Cell := { state := CellState.Alive, neighbor_count := 0 }

/-- The `match` on a cell's state inside `Board::step`, as a function of the
current state and the cached neighbor count. -/
def stepCellState (state : CellState) (neighbor_count : Nat) : CellState :=
  match state with
  | CellState.Alive =>
      if neighbor_count < 2 ∨ neighbor_count > 3 then CellState.Dying CYCLES_TO_DIE
      else CellState.Alive
  | CellState.Dying cycles_left =>
      if neighbor_count = 3 then CellState.Alive
      else if cycles_left = 0 then CellState.Dead
      else CellState.Dying (cycles_left - 1)
  | CellState.Dead =>
      if neighbor_count = 3 then CellState.Alive
      else CellState.Dead

/-- `Board::step`: apply `stepCellState` to every cell in place. -/
def Board.step (b : Board) : Board :=
  { b with
    cells := b.cells.map (fun cell =>
      { cell with state := stepCellState cell.state cell.neighbor_count }) }

/-- `Board::index_to_coordinates`: `x = index % width`, `y = index / width`,
each cast with `as i32`.  (Rust panics when `width == 0`; that is unreachable
from a board whose cell list is nonempty of length `width * height`, and
nothing below applies it with `width = 0`.) -/
def Board.index_to_coordinates (b : Board) (index : Nat) : Int × Int :=
  (usizeToI32 (index % b.width), usizeToI32 (index / b.width))

/-- `Board::coordinates_to_index`: bounds-check `x` against `width as i32` and
`y` against `height as i32`, then return `y as usize * width + x as usize`
(usize arithmetic, hence modulo `2^64`). -/
def Board.coordinates_to_index (b : Board) (x y : Int) : Option Nat :=
  if x < 0 ∨ x ≥ usizeToI32 b.width then none
  else if y < 0 ∨ y ≥ usizeToI32 b.height then none
  else some ((y.toNat * b.width + x.toNat) % USIZE_MOD)

/-- The pattern-match `CellState::Alive => true, _ => false` used in the
filter inside `Board::live_neighbor_count`. -/
def isAliveState : CellState → Bool
  | CellState.Alive => true
  | _ => false

/-- Reading `self.cells[*index].state` for one entry of the neighbor-index
list: `some index` performs the (possibly panicking) `Vec` access, `None`
counts as not alive. -/
def checkAlive (b : Board) : Option Nat → Option Bool
  | some index =>
      match b.cells[index]? with
      | some c => some (isAliveState c.state)
      | none => none
  | none => some false

/-- Evaluate a list of possibly-panicking computations in order;
`none` anywhere models a panic of the whole loop. -/
def sequenceOpt {α : Type} : List (Option α) → Option (List α)
  | [] => some []
  | o :: rest => o.bind (fun a => (sequenceOpt rest).map (fun l => a :: l))

/-- `Board::live_neighbor_count`: the 8 Moore-neighborhood lookups around
`index_to_coordinates index`, counting the ones that resolve to an `Alive`
cell. -/
def Board.live_neighbor_count (b : Board) (index : Nat) : Option Nat :=
  let x := (b.index_to_coordinates index).1
  let y := (b.index_to_coordinates index).2
  let cell_indices : List (Option Nat) :=
    [b.coordinates_to_index (x - 1) (y - 1),
     b.coordinates_to_index x (y - 1),
     b.coordinates_to_index (x + 1) (y - 1),
     b.coordinates_to_index (x - 1) y,
     b.coordinates_to_index (x + 1) y,
     b.coordinates_to_index (x - 1) (y + 1),
     b.coordinates_to_index x (y + 1),
     b.coordinates_to_index (x + 1) (y + 1)]
  (sequenceOpt (cell_indices.map (checkAlive b))).map (fun l => l.count true)

/-- `Board::update_live_neighbor_counts`: compute every cell's count from the
current states (a read-only snapshot), then write the counts back. -/
def Board.update_live_neighbor_counts (b : Board) : Option Board :=
  (sequenceOpt ((List.range b.cells.length).map (fun i => b.live_neighbor_count i))).map
    (fun neighbor_counts =>
      { b with
        cells := b.cells.zipWith (fun cell n => { cell with neighbor_count := n })
          neighbor_counts })

/-- The fixed seed coordinates of `Board::add_glider_gun`. -/
def gliderGunSeeds : List (Nat × Nat) :=
  [(25, 1), (23, 2), (25, 2), (13, 3), (14, 3), (21, 3), (22, 3), (35, 3), (36, 3),
   (12, 4), (16, 4), (21, 4), (22, 4), (35, 4), (36, 4), (1, 5), (2, 5), (11, 5),
   (17, 5), (21, 5), (22, 5), (1, 6), (2, 6), (11, 6), (15, 6), (17, 6), (18, 6),
   (23, 6), (25, 6), (11, 7), (17, 7), (25, 7), (12, 8), (16, 8), (13, 9), (14, 9)]

/-- The loop body of `Board::add_glider_gun`:
`self.cells[x + y * self.width] = Cell::alive()` for each seed, where the
`Vec` write panics (`none`) when the linear index is out of range. -/
def placeSeeds : Board → List (Nat × Nat) → Option Board
  | b, [] => some b
  | b, (x, y) :: rest =>
      if (x + y * b.width) % USIZE_MOD < b.cells.length then
        placeSeeds
          { b with cells := b.cells.set ((x + y * b.width) % USIZE_MOD) Cell.alive } rest
      else none

/-- `Board::add_glider_gun`. -/
def Board.add_glider_gun (b : Board) : Option Board :=
  placeSeeds b gliderGunSeeds

/-- `Board::new`: `vec![Cell::dead(); width * height]` (usize product, hence
modulo `2^64`), generation 0, then `add_glider_gun`. -/
def Board.new (width height : Nat) : Option Board :=
  Board.add_glider_gun
    { generation := 0, width := width, height := height,
      cells := List.replicate ((width * height) % USIZE_MOD) Cell.dead }

/-- The board mutation performed by `draw` each frame: `generation += 1`
(a `usize` increment, hence modulo `2^64`), then `update_live_neighbor_counts`,
then `step`. -/
def Board.tick (b : Board) : Option Board :=
  (Board.update_live_neighbor_counts
      { b with generation := (b.generation + 1) % USIZE_MOD }).map
    Board.step

/-- `N` consecutive ticks. -/
def Board.tickN : Nat → Board → Option Board
  | 0, b => some b
  | n + 1, b => (b.tick).bind (Board.tickN n)

/-- `stepCellState` with the subtraction `cycles_left - 1` replaced by a
checked subtraction that fails on underflow (Rust debug semantics). -/
def checkedSub (a b : Nat) : Option Nat :=
  if b ≤ a then some (a - b) else none

/-- Checked variant of the transition: every arithmetic operation that could
underflow is guarded; `none` would mean a panic. -/
def stepCellStateChecked (state : CellState) (neighbor_count : Nat) : Option CellState :=
  match state with
  | CellState.Alive =>
      if neighbor_count < 2 ∨ neighbor_count > 3 then some (CellState.Dying CYCLES_TO_DIE)
      else some CellState.Alive
  | CellState.Dying cycles_left =>
      if neighbor_count = 3 then some CellState.Alive
      else if cycles_left = 0 then some CellState.Dead
      else (checkedSub cycles_left 1).map CellState.Dying
  | CellState.Dead =>
      if neighbor_count = 3 then some CellState.Alive
      else some CellState.Dead

/-- A plain 3×3 all-dead board used as a concrete witness input. -/
def bW3 : Board :=
  { generation := 0, width := 3, height := 3, cells := List.replicate 9 Cell.dead }

/-- A board of width `2^31` (one row): its width does not fit in `i32`, so the
cast `self.width as i32` in `coordinates_to_index` wraps to `-2^31`. -/
def bBig1 : Board :=
  { generation := 0, width := 2147483648, height := 1,
    cells := List.replicate 2147483648 Cell.dead }

/-- Modelled from the spec (§4.1): the 8 Moore-neighborhood offsets, in the
order the source enumerates the neighbor lookups. -/
def mooreOffsets : List (Int × Int) :=
  [(-1, -1), (0, -1), (1, -1), (-1, 0), (1, 0), (-1, 1), (0, 1), (1, 1)]

/-- Modelled from the spec (§4.1): position `(u, v)` lies on the grid and the
cell stored there (row-major) is `Alive`; positions with `u` or `v` outside
`[0, width)` / `[0, height)` count as not alive. -/
def inBoundsAlive (b : Board) (u v : Int) : Bool :=
  decide (0 ≤ u) && decide (u < (b.width : Int)) && decide (0 ≤ v) &&
    decide (v < (b.height : Int)) &&
    (match b.cells[v.toNat * b.width + u.toNat]? with
     | some c => isAliveState c.state
     | none => false)

/-- Modelled from the spec (§4.1): the number of the 8 Moore-neighborhood
positions of `(x, y)` (the cell itself excluded) that hold `Alive`. -/
def spec_neighbor_count (b : Board) (x y : Nat) : Nat :=
  (mooreOffsets.filter (fun d => inBoundsAlive b ((x : Int) + d.1) ((y : Int) + d.2))).length

/-- The 3×3 board whose center cell alone is `Alive`. -/
def bW3c : Board :=
  { generation := 0, width := 3, height := 3,
    cells := [Cell.dead, Cell.dead, Cell.dead,
              Cell.dead, Cell.alive, Cell.dead,
              Cell.dead, Cell.dead, Cell.dead] }

/-- A board of width `2^31`, height 1, whose first two cells are `Alive`:
each of those cells is the other's Moore neighbor. -/
def bBig2 : Board :=
  { generation := 0, width := 2147483648, height := 1,
    cells := Cell.alive :: Cell.alive :: List.replicate 2147483646 Cell.dead }

/-- The board `bW3c` after its neighbor-count update. -/
def bW3cU : Board :=
  (bW3c.update_live_neighbor_counts).getD bW3c

/-- A fallback board value for extracting results from `Option Board`. -/
def emptyBoard : Board :=
  { generation := 0, width := 0, height := 0, cells := [] }

/-- The board built by `Board::new(15, 10)` (its 150 cells can hold every
seed's linear index, so construction succeeds). -/
def b15 : Board :=
  (Board.new 15 10).getD emptyBoard

/-- `b15` after two ticks. -/
def b15T2 : Board :=
  (Board.tickN 2 b15).getD emptyBoard

/-- The states of a board whose `Alive` cells form exactly the 2×2 block with
corners `(a, b0)` and `(a+1, b0+1)` on a `w × h` grid, every other cell being
`Dead`. -/
def blockConfig (w h a b0 : Nat) (brd : Board) : Prop :=
  brd.width = w ∧ brd.height = h ∧ brd.cells.length = w * h ∧
    ∀ i : Nat, ∀ hi : i < brd.cells.length,
      (brd.cells[i]).state =
        (if (i % w = a ∨ i % w = a + 1) ∧ (i / w = b0 ∨ i / w = b0 + 1)
         then CellState.Alive else CellState.Dead)

/-- The cell list realising `blockConfig w h a b0` (row-major generator). -/
def blockCells (w h a b0 : Nat) : List Cell :=
  (List.range (w * h)).map
    (fun i => if (i % w = a ∨ i % w = a + 1) ∧ (i / w = b0 ∨ i / w = b0 + 1)
              then Cell.alive else Cell.dead)

/-- The membership pattern of three consecutive integers in a two-element
window `{a, a+1}`: only these five profiles can occur. -/
def validProfile (p q r : Bool) : Bool :=
  (!p && !q && !r) || (!p && !q && r) || (!p && q && r) || (p && q && !r) || (p && !q && !r)

/-- The 5×5 board with a 2×2 block of `Alive` cells at `(1, 1)`. -/
def bB5 : Board :=
  { generation := 0, width := 5, height := 5,
    cells := [Cell.dead, Cell.dead, Cell.dead, Cell.dead, Cell.dead,
              Cell.dead, Cell.alive, Cell.alive, Cell.dead, Cell.dead,
              Cell.dead, Cell.alive, Cell.alive, Cell.dead, Cell.dead,
              Cell.dead, Cell.dead, Cell.dead, Cell.dead, Cell.dead,
              Cell.dead, Cell.dead, Cell.dead, Cell.dead, Cell.dead] }

/-- `bB5` after three ticks. -/
def bB5T : Board :=
  (Board.tickN 3 bB5).getD emptyBoard

/-- The board of width `2^31`, height 5, holding the 2×2 block at `(1, 1)`:
a block strictly inside the grid. -/
def bBig4 : Board :=
  { generation := 0, width := 2147483648, height := 5,
    cells := blockCells 2147483648 5 1 1 }

/-- C1: `step()` maps every cell's current state and cached neighbor count to
the next state exactly as the spec's finite state machine prescribes: an
`Alive` cell stays `Alive` iff its neighbor count is 2 or 3 and otherwise
becomes `Dying(CYCLES_TO_DIE)`; a `Dying(n)` cell becomes `Alive` iff the
count is 3, otherwise `Dying(0)` becomes `Dead` and `Dying(n)` with `n > 0`
becomes `Dying(n-1)`; a `Dead` cell becomes `Alive` iff the count is 3 and
otherwise stays `Dead`. -/
theorem c1_step_fsm :
    (∀ (b : Board) (i : Nat),
      (Board.step b).cells[i]?.map (fun c => c.state)
        = b.cells[i]?.map (fun c => stepCellState c.state c.neighbor_count))
    ∧ (∀ nc : Nat,
        stepCellState CellState.Alive nc
          = if nc = 2 ∨ nc = 3 then CellState.Alive else CellState.Dying CYCLES_TO_DIE)
    ∧ (∀ (n nc : Nat),
        stepCellState (CellState.Dying n) nc
          = if nc = 3 then CellState.Alive
            else if n = 0 then CellState.Dead else CellState.Dying (n - 1))
    ∧ (∀ nc : Nat,
        stepCellState CellState.Dead nc
          = if nc = 3 then CellState.Alive else CellState.Dead) := by
  refine ⟨?_, ?_, ?_, ?_⟩
  · intro b i
    simp [Board.step, List.getElem?_map, Option.map_map]
    rfl
  · intro nc
    by_cases h : nc = 2 ∨ nc = 3
    · have : ¬(nc < 2 ∨ nc > 3) := by omega
      simp [stepCellState, this, h]
    · have : nc < 2 ∨ nc > 3 := by omega
      simp [stepCellState, this, h]
  · intro n nc
    rfl
  · intro nc
    rfl

/-- C8: the transition function is total: for every state (including
`Dying(n)` for every `n`) and every neighbor count, the checked transition —
in which the decrement `n - 1` fails unless `n > 0` — succeeds and returns
exactly the unchecked transition's result, so no error path or arithmetic
underflow exists. -/
theorem c8_transition_total :
    ∀ (state : CellState) (neighbor_count : Nat),
      stepCellStateChecked state neighbor_count
        = some (stepCellState state neighbor_count) := by
  intro state nc
  cases state with
  | Alive =>
      by_cases h : nc < 2 ∨ nc > 3 <;> simp [stepCellStateChecked, stepCellState, h]
  | Dying n =>
      by_cases h3 : nc = 3
      · simp [stepCellStateChecked, stepCellState, h3]
      · by_cases h0 : n = 0
        · simp [stepCellStateChecked, stepCellState, h3, h0]
        · simp [stepCellStateChecked, stepCellState, h3, h0, checkedSub]
  | Dead =>
      by_cases h : nc = 3 <;> simp [stepCellStateChecked, stepCellState, h]

theorem usizeToI32_of_lt {n : Nat} (h : n < 2147483648) : usizeToI32 n = (n : Int) := by
  have h32 : n % 4294967296 = n := Nat.mod_eq_of_lt (by omega)
  simp [usizeToI32, h32, h]

theorem usizeToI32_lb (n : Nat) : -2147483648 ≤ usizeToI32 n := by
  unfold usizeToI32
  split <;> omega

theorem usizeToI32_ub (n : Nat) : usizeToI32 n < 2147483648 := by
  unfold usizeToI32
  have : n % 4294967296 < 4294967296 := Nat.mod_lt _ (by omega)
  split <;> omega

/-- For a board whose dimensions fit in `i32`, `coordinates_to_index` is
exactly the spec's in-bounds row-major index. -/
theorem coordinates_to_index_char (b : Board)
    (hw : b.width < 2147483648) (hh : b.height < 2147483648) (x y : Int) :
    b.coordinates_to_index x y =
      if 0 ≤ x ∧ x < (b.width : Int) ∧ 0 ≤ y ∧ y < (b.height : Int) then
        some (y.toNat * b.width + x.toNat)
      else none := by
  unfold Board.coordinates_to_index
  rw [usizeToI32_of_lt hw, usizeToI32_of_lt hh]
  by_cases hx : x < 0 ∨ x ≥ (b.width : Int)
  · rw [if_pos hx, if_neg (by omega)]
  · rw [if_neg hx]
    by_cases hy : y < 0 ∨ y ≥ (b.height : Int)
    · rw [if_pos hy, if_neg (by omega)]
    · rw [if_neg hy, if_pos (by omega)]
      have hxn : x.toNat < b.width := by omega
      have hyn : y.toNat < b.height := by omega
      have hlt : y.toNat * b.width + x.toNat < b.height * b.width := by
        calc y.toNat * b.width + x.toNat < (y.toNat + 1) * b.width := by
              rw [Nat.add_mul, Nat.one_mul]; omega
        _ ≤ b.height * b.width := Nat.mul_le_mul_right _ (by omega)
      have hsmall : b.height * b.width < USIZE_MOD := by
        have := Nat.mul_le_mul (Nat.le_of_lt_succ (by omega : b.height < 2147483648))
          (Nat.le_of_lt_succ (by omega : b.width < 2147483648))
        unfold USIZE_MOD
        omega
      rw [Nat.mod_eq_of_lt (by omega)]

/-- For an in-range linear index on a board whose dimensions fit in `i32`,
`index_to_coordinates` is exactly `(i % width, i / width)`. -/
theorem index_to_coordinates_char (b : Board)
    (hw0 : 0 < b.width) (hw : b.width < 2147483648) (hh : b.height < 2147483648)
    (i : Nat) (hi : i < b.width * b.height) :
    b.index_to_coordinates i = (((i % b.width : Nat) : Int), ((i / b.width : Nat) : Int)) := by
  have h1 : i % b.width < b.width := Nat.mod_lt _ hw0
  have h2 : i / b.width < b.height := Nat.div_lt_of_lt_mul hi
  unfold Board.index_to_coordinates
  rw [usizeToI32_of_lt (by omega), usizeToI32_of_lt (by omega)]

/-- C5 (amended): for every board whose width and height are below `2^31`
(so the `as i32` casts are exact) and every pair of integers `(x, y)`,
`coordinates_to_index(x, y)` returns `Some(y*width + x)` if
`0 ≤ x < width` and `0 ≤ y < height`, and `None` otherwise. -/
theorem c5_coordinates_to_index (b : Board)
    (hw : b.width < 2147483648) (hh : b.height < 2147483648) (x y : Int) :
    b.coordinates_to_index x y =
      if 0 ≤ x ∧ x < (b.width : Int) ∧ 0 ≤ y ∧ y < (b.height : Int) then
        some (y.toNat * b.width + x.toNat)
      else none :=
  coordinates_to_index_char b hw hh x y

/-- Witness for C5 at a concrete input: on the 3×3 board, `(1, 2)` is in
bounds and maps to linear index `2*3 + 1 = 7`. -/
theorem c5_coordinates_to_index_witness :
    bW3.coordinates_to_index 1 2 = some 7 := by
  have h := c5_coordinates_to_index bW3 (by norm_num [bW3]) (by norm_num [bW3]) 1 2
  rw [h, if_pos (by norm_num [bW3])]
  decide

/-- C5 counterexample: on a board of width `2^31` and height 1 — well formed,
`cells.length = width * height` — the coordinate `(0, 0)` satisfies
`0 ≤ 0 < width` and `0 ≤ 0 < height`, yet `coordinates_to_index 0 0` returns
`None` instead of the `Some(0)` the claim requires, because
`width as i32` wraps to `-2^31` and the check `x >= width as i32` passes. -/
theorem c5_cex :
    bBig1.cells.length = bBig1.width * bBig1.height
    ∧ (0 : Int) ≤ 0 ∧ (0 : Int) < (bBig1.width : Int)
    ∧ (0 : Int) ≤ 0 ∧ (0 : Int) < (bBig1.height : Int)
    ∧ bBig1.coordinates_to_index 0 0 = none := by
  have hlen : bBig1.cells.length = bBig1.width * bBig1.height := by
    show (List.replicate 2147483648 Cell.dead).length = 2147483648 * 1
    rw [List.length_replicate, Nat.mul_one]
  refine ⟨hlen, by norm_num, by norm_num [bBig1], by norm_num,
    by norm_num [bBig1], ?_⟩
  have h : usizeToI32 bBig1.width = -2147483648 := by norm_num [bBig1, usizeToI32]
  simp [Board.coordinates_to_index, h]

/-- C6 (amended): for every board with `0 < width` whose width and height are
below `2^31`, and every in-bounds `(x, y)`, `coordinates_to_index` returns
some index `i = y*width + x` with `i < width*height`, `index_to_coordinates i`
returns exactly `(x, y)`, and that inverse computes `x = i % width`,
`y = i / width`. -/
theorem c6_roundtrip (b : Board)
    (hw0 : 0 < b.width) (hw : b.width < 2147483648) (hh : b.height < 2147483648)
    (x y : Int) (hx0 : 0 ≤ x) (hxw : x < (b.width : Int))
    (hy0 : 0 ≤ y) (hyh : y < (b.height : Int)) :
    b.coordinates_to_index x y = some (y.toNat * b.width + x.toNat)
    ∧ y.toNat * b.width + x.toNat < b.width * b.height
    ∧ b.index_to_coordinates (y.toNat * b.width + x.toNat) = (x, y)
    ∧ ((y.toNat * b.width + x.toNat) % b.width : Nat) = x.toNat
    ∧ ((y.toNat * b.width + x.toNat) / b.width : Nat) = y.toNat := by
  have hxn : x.toNat < b.width := by omega
  have hyn : y.toNat < b.height := by omega
  have hidx : y.toNat * b.width + x.toNat < b.width * b.height := by
    calc y.toNat * b.width + x.toNat < (y.toNat + 1) * b.width := by
          rw [Nat.add_mul, Nat.one_mul]; omega
    _ ≤ b.height * b.width := Nat.mul_le_mul_right _ (by omega)
    _ = b.width * b.height := Nat.mul_comm _ _
  have hmod : (y.toNat * b.width + x.toNat) % b.width = x.toNat := by
    rw [Nat.add_comm, Nat.add_mul_mod_self_right, Nat.mod_eq_of_lt hxn]
  have hdiv : (y.toNat * b.width + x.toNat) / b.width = y.toNat := by
    rw [Nat.add_comm, Nat.add_mul_div_right _ _ hw0, Nat.div_eq_of_lt hxn,
      Nat.zero_add]
  refine ⟨?_, hidx, ?_, hmod, hdiv⟩
  · rw [coordinates_to_index_char b hw hh, if_pos (by omega)]
  · rw [index_to_coordinates_char b hw0 hw hh _ hidx, hmod, hdiv,
      Int.toNat_of_nonneg hx0, Int.toNat_of_nonneg hy0]

/-- Witness for C6 at a concrete input: on the 3×3 board, `(1, 2)` maps to
index 7 and back to `(1, 2)`. -/
theorem c6_roundtrip_witness :
    bW3.coordinates_to_index 1 2 = some 7 ∧ bW3.index_to_coordinates 7 = (1, 2) := by
  have h := c6_roundtrip bW3 (by norm_num [bW3]) (by norm_num [bW3]) (by norm_num [bW3])
    1 2 (by norm_num) (by norm_num [bW3]) (by norm_num) (by norm_num [bW3])
  exact ⟨by simpa [bW3] using h.1, by simpa [bW3] using h.2.2.1⟩

/-- C6 counterexample: the board of width `2^31 > 0`, height 1 is well
formed, `(0, 0)` is in bounds, yet `coordinates_to_index 0 0` is `None`, so no
index exists for `index_to_coordinates` to invert, contrary to the claim. -/
theorem c6_cex :
    0 < bBig1.width
    ∧ bBig1.cells.length = bBig1.width * bBig1.height
    ∧ (0 : Int) ≤ 0 ∧ (0 : Int) < (bBig1.width : Int)
    ∧ (0 : Int) ≤ 0 ∧ (0 : Int) < (bBig1.height : Int)
    ∧ bBig1.coordinates_to_index 0 0 = none := by
  have hlen : bBig1.cells.length = bBig1.width * bBig1.height := by
    show (List.replicate 2147483648 Cell.dead).length = 2147483648 * 1
    rw [List.length_replicate, Nat.mul_one]
  refine ⟨by norm_num [bBig1], hlen, by norm_num, by norm_num [bBig1],
    by norm_num, by norm_num [bBig1], ?_⟩
  have h : usizeToI32 bBig1.width = -2147483648 := by norm_num [bBig1, usizeToI32]
  simp [Board.coordinates_to_index, h]

theorem usizeToI32_le (n : Nat) : usizeToI32 n ≤ (n : Int) := by
  unfold usizeToI32
  have := Nat.mod_le n 4294967296
  split <;> omega

theorem sequenceOpt_map_eq {α β : Type} (f : α → Option β) (g : α → β) :
    ∀ (l : List α), (∀ a ∈ l, f a = some (g a)) → sequenceOpt (l.map f) = some (l.map g)
  | [], _ => rfl
  | a :: rest, h => by
      have ha : f a = some (g a) := h a (List.mem_cons_self a rest)
      have hrest := sequenceOpt_map_eq f g rest (fun x hx => h x (List.mem_cons_of_mem a hx))
      simp [sequenceOpt, ha, hrest]

theorem sequenceOpt_length {α : Type} :
    ∀ (l : List (Option α)) (l2 : List α), sequenceOpt l = some l2 → l2.length = l.length
  | [], l2, h => by
      simp [sequenceOpt] at h
      simp [← h]
  | o :: rest, l2, h => by
      cases o with
      | none => simp [sequenceOpt] at h
      | some a =>
          cases hrest : sequenceOpt rest with
          | none => simp [sequenceOpt, hrest] at h
          | some l3 =>
              simp [sequenceOpt, hrest] at h
              have hlen := sequenceOpt_length rest l3 hrest
              simp [← h, hlen]

/-- Every `Some` index produced by `coordinates_to_index` is in range of the
cell vector of a well-formed board, whatever the dimensions: the bounds
checks cap the recovered coordinates by `width` and `height`, and the final
wrap can only shrink the index. -/
theorem coordinates_to_index_lt (b : Board) (hlen : b.cells.length = b.width * b.height)
    {u v : Int} {n : Nat} (h : b.coordinates_to_index u v = some n) :
    n < b.cells.length := by
  unfold Board.coordinates_to_index at h
  split at h
  · exact absurd h (by simp)
  · split at h
    · exact absurd h (by simp)
    · rename_i hu hv
      have hwle := usizeToI32_le b.width
      have hhle := usizeToI32_le b.height
      have hun : u.toNat < b.width := by omega
      have hvn : v.toNat < b.height := by omega
      have hlt : v.toNat * b.width + u.toNat < b.width * b.height := by
        calc v.toNat * b.width + u.toNat < (v.toNat + 1) * b.width := by
              rw [Nat.add_mul, Nat.one_mul]; omega
        _ ≤ b.height * b.width := Nat.mul_le_mul_right _ (by omega)
        _ = b.width * b.height := Nat.mul_comm _ _
      have hn : n = (v.toNat * b.width + u.toNat) % USIZE_MOD := by
        simpa using h.symm
      have := Nat.mod_le (v.toNat * b.width + u.toNat) USIZE_MOD
      omega

theorem spec_neighbor_count_explicit (b : Board) (x y : Nat) :
    spec_neighbor_count b x y
      = List.count true
          [inBoundsAlive b ((x : Int) - 1) ((y : Int) - 1),
           inBoundsAlive b ((x : Int)) ((y : Int) - 1),
           inBoundsAlive b ((x : Int) + 1) ((y : Int) - 1),
           inBoundsAlive b ((x : Int) - 1) ((y : Int)),
           inBoundsAlive b ((x : Int) + 1) ((y : Int)),
           inBoundsAlive b ((x : Int) - 1) ((y : Int) + 1),
           inBoundsAlive b ((x : Int)) ((y : Int) + 1),
           inBoundsAlive b ((x : Int) + 1) ((y : Int) + 1)] := by
  unfold spec_neighbor_count mooreOffsets
  rw [← List.countP_eq_length_filter]
  simp [List.countP_cons, List.count_cons, sub_eq_add_neg]

/-- Reading one neighbor through `coordinates_to_index` and the cell vector
matches the spec-side `inBoundsAlive` predicate, on a well-formed board whose
dimensions fit in `i32`. -/
theorem checkAlive_coordinates (b : Board) (hw : b.width < 2147483648)
    (hh : b.height < 2147483648) (hlen : b.cells.length = b.width * b.height)
    (u v : Int) :
    checkAlive b (b.coordinates_to_index u v) = some (inBoundsAlive b u v) := by
  rw [coordinates_to_index_char b hw hh]
  by_cases hin : 0 ≤ u ∧ u < (b.width : Int) ∧ 0 ≤ v ∧ v < (b.height : Int)
  · rw [if_pos hin]
    have hun : u.toNat < b.width := by omega
    have hvn : v.toNat < b.height := by omega
    have hidx : v.toNat * b.width + u.toNat < b.cells.length := by
      rw [hlen]
      calc v.toNat * b.width + u.toNat < (v.toNat + 1) * b.width := by
            rw [Nat.add_mul, Nat.one_mul]; omega
      _ ≤ b.height * b.width := Nat.mul_le_mul_right _ (by omega)
      _ = b.width * b.height := Nat.mul_comm _ _
    simp [checkAlive, inBoundsAlive, List.getElem?_eq_getElem hidx,
      hin.1, hin.2.1, hin.2.2.1, hin.2.2.2]
  · rw [if_neg hin]
    have hfalse : inBoundsAlive b u v = false := by
      unfold inBoundsAlive
      rcases (by omega :
          ¬(0 ≤ u) ∨ ¬(u < (b.width : Int)) ∨ ¬(0 ≤ v) ∨ ¬(v < (b.height : Int)))
        with h | h | h | h <;> simp [h]
    rw [hfalse]
    rfl

/-- On a well-formed board whose dimensions fit in `i32`,
`live_neighbor_count` at an in-range index succeeds and computes exactly the
spec-side Moore-neighborhood count at `(i % width, i / width)`. -/
theorem live_neighbor_count_char (b : Board) (hw0 : 0 < b.width)
    (hw : b.width < 2147483648) (hh : b.height < 2147483648)
    (hlen : b.cells.length = b.width * b.height) (i : Nat)
    (hi : i < b.width * b.height) :
    b.live_neighbor_count i
      = some (spec_neighbor_count b (i % b.width) (i / b.width)) := by
  unfold Board.live_neighbor_count
  rw [index_to_coordinates_char b hw0 hw hh i hi]
  simp only [List.map_cons, List.map_nil,
    checkAlive_coordinates b hw hh hlen]
  rw [spec_neighbor_count_explicit]
  simp [sequenceOpt]

/-- On a well-formed board whose dimensions fit in `i32`,
`update_live_neighbor_counts` succeeds and writes every cell's spec-side
Moore count, leaving everything else unchanged. -/
theorem update_char (b : Board) (hw : b.width < 2147483648)
    (hh : b.height < 2147483648) (hlen : b.cells.length = b.width * b.height) :
    b.update_live_neighbor_counts
      = some { b with
          cells := b.cells.zipWith (fun cell n => { cell with neighbor_count := n })
            ((List.range b.cells.length).map
              (fun i => spec_neighbor_count b (i % b.width) (i / b.width))) } := by
  rcases Nat.eq_zero_or_pos b.width with hw0 | hw0
  · have h0 : b.cells.length = 0 := by rw [hlen, hw0, Nat.zero_mul]
    have hnil : b.cells = [] := List.length_eq_zero.mp h0
    unfold Board.update_live_neighbor_counts
    rw [hnil]
    rfl
  · unfold Board.update_live_neighbor_counts
    rw [sequenceOpt_map_eq _ _ _
      (fun i hmem => live_neighbor_count_char b hw0 hw hh hlen i
        (hlen ▸ List.mem_range.mp hmem))]
    rfl

/-- C2 (amended): on every well-formed board (`cells.length = width*height`)
whose width and height are below `2^31`, `update_live_neighbor_counts`
completes and gives every cell the count of its 8 Moore-neighborhood
positions (itself excluded) that held `Alive` beforehand, off-grid positions
counting as not alive; the result is a function of the prior states alone,
hence independent of any visiting order. -/
theorem c2_update_counts (b : Board) (hw : b.width < 2147483648)
    (hh : b.height < 2147483648) (hlen : b.cells.length = b.width * b.height) :
    ∃ b2, b.update_live_neighbor_counts = some b2
      ∧ b2.cells.length = b.cells.length
      ∧ ∀ i : Nat, i < b.cells.length →
          (b2.cells[i]?).map (fun c => c.neighbor_count)
            = some (spec_neighbor_count b (i % b.width) (i / b.width)) := by
  refine ⟨_, update_char b hw hh hlen, ?_, ?_⟩
  · simp [List.length_zipWith, List.length_map, List.length_range]
  · intro i hi
    simp only [List.getElem?_zipWith, List.getElem?_map,
      List.getElem?_range hi, List.getElem?_eq_getElem hi]
    rfl

/-- Witness for C2 at a concrete input: on the 3×3 board with only the
center alive, the corner `(0, 0)` gets neighbor count 1. -/
theorem c2_update_counts_witness :
    ((bW3c.update_live_neighbor_counts).bind (fun b2 => b2.cells[0]?)).map
        (fun c => c.neighbor_count) = some (spec_neighbor_count bW3c 0 0)
    ∧ spec_neighbor_count bW3c 0 0 = 1 := by
  obtain ⟨b2, h1, h2, h3⟩ := c2_update_counts bW3c (by norm_num [bW3c])
    (by norm_num [bW3c]) (by norm_num [bW3c])
  constructor
  · rw [h1]
    simpa using h3 0 (by norm_num [bW3c])
  · decide

/-- When `width as i32` wraps to `-2^31`, every bounds check in
`coordinates_to_index` fails, whatever the coordinates. -/
theorem coordinates_to_index_wrap_none (b : Board)
    (hwrap : usizeToI32 b.width = -2147483648) (u v : Int) :
    b.coordinates_to_index u v = none := by
  unfold Board.coordinates_to_index
  rw [hwrap, if_pos (by omega)]

/-- When `width as i32` wraps to `-2^31`, every cell's computed live-neighbor
count is 0. -/
theorem live_zero_of_wrap (b : Board)
    (hwrap : usizeToI32 b.width = -2147483648) (i : Nat) :
    b.live_neighbor_count i = some 0 := by
  unfold Board.live_neighbor_count
  simp [coordinates_to_index_wrap_none b hwrap, checkAlive, sequenceOpt]

theorem update_result_nc0 (b : Board) (counts : List Nat)
    (h : b.update_live_neighbor_counts
      = some { b with
          cells := b.cells.zipWith (fun cell n => { cell with neighbor_count := n }) counts })
    (c : Cell) (n : Nat) (hc : b.cells[0]? = some c) (hn : counts[0]? = some n) :
    ((b.update_live_neighbor_counts).bind (fun x => x.cells[0]?)).map
        (fun x => x.neighbor_count) = some n := by
  rw [h]
  simp only [Option.some_bind]
  rw [List.getElem?_zipWith, hc, hn]
  rfl

/-- C2 counterexample: on the well-formed board of width `2^31` whose cells
0 and 1 are `Alive`, the Moore-neighborhood count of cell `(0, 0)` is 1, yet
after `update_live_neighbor_counts` its `neighbor_count` is 0: the wrapped
`width as i32` check rejects every neighbor lookup. -/
theorem c2_cex :
    bBig2.cells.length = bBig2.width * bBig2.height
    ∧ spec_neighbor_count bBig2 0 0 = 1
    ∧ ((bBig2.update_live_neighbor_counts).bind (fun b2 => b2.cells[0]?)).map
        (fun c => c.neighbor_count) = some 0 := by
  have hcells : bBig2.cells = Cell.alive :: Cell.alive :: List.replicate 2147483646 Cell.dead :=
    rfl
  have hwidth : bBig2.width = 2147483648 := rfl
  have hheight : bBig2.height = 1 := rfl
  have hwrap : usizeToI32 bBig2.width = -2147483648 := by
    rw [hwidth]
    norm_num [usizeToI32]
  have hlen : bBig2.cells.length = bBig2.width * bBig2.height := by
    rw [hcells, hwidth, hheight, List.length_cons, List.length_cons,
      List.length_replicate]
  have h0 : (0 : Nat) < bBig2.cells.length := by
    rw [hlen, hwidth, hheight]
    norm_num
  have hspec : spec_neighbor_count bBig2 0 0 = 1 := by
    have hv1 : ∀ u : Int, inBoundsAlive bBig2 u (-1) = false := by
      intro u
      unfold inBoundsAlive
      simp only [show decide ((0 : Int) ≤ -1) = false from rfl,
        Bool.and_false, Bool.false_and]
    have hv2 : ∀ u : Int, inBoundsAlive bBig2 u 1 = false := by
      intro u
      unfold inBoundsAlive
      simp only [hheight, show decide ((1 : Int) < ((1 : Nat) : Int)) = false from rfl,
        Bool.and_false, Bool.false_and]
    have hmin : inBoundsAlive bBig2 (-1) 0 = false := by
      unfold inBoundsAlive
      simp only [show decide ((0 : Int) ≤ -1) = false from rfl,
        Bool.and_false, Bool.false_and]
    have h10 : inBoundsAlive bBig2 1 0 = true := by
      have hidx : bBig2.cells[Int.toNat 0 * bBig2.width + Int.toNat 1]? = some Cell.alive := by
        rw [show Int.toNat 0 * bBig2.width + Int.toNat 1 = 1 from rfl, hcells]
        simp only [List.getElem?_cons_succ, List.getElem?_cons_zero]
      unfold inBoundsAlive
      rw [hidx]
      decide
    rw [spec_neighbor_count_explicit]
    simp only [Nat.cast_zero, zero_sub, zero_add]
    rw [hv1, hv1, hv1, hmin, h10, hv2, hv2, hv2]
    decide
  refine ⟨hlen, hspec, ?_⟩
  have hupd : bBig2.update_live_neighbor_counts
      = some { bBig2 with
          cells := bBig2.cells.zipWith (fun cell n => { cell with neighbor_count := n })
            ((List.range bBig2.cells.length).map (fun _ => (0 : Nat))) } := by
    unfold Board.update_live_neighbor_counts
    rw [sequenceOpt_map_eq _ (fun _ => (0 : Nat)) _
      (fun i _ => live_zero_of_wrap bBig2 hwrap i)]
    rfl
  have hc : bBig2.cells[0]? = some Cell.alive := by
    rw [hcells]
    exact List.getElem?_cons_zero
  have hr : ((List.range bBig2.cells.length).map (fun _ => (0 : Nat)))[0]? = some 0 := by
    rw [List.getElem?_map, List.getElem?_range h0]
    rfl
  exact update_result_nc0 bBig2 _ hupd _ _ hc hr

/-- When `update_live_neighbor_counts` completes, it only rewrites the cells'
`neighbor_count` fields: width, height, generation, the vector length and
every cell's state are untouched. -/
theorem update_frame_fields (b b2 : Board)
    (h : b.update_live_neighbor_counts = some b2) :
    b2.width = b.width ∧ b2.height = b.height ∧ b2.generation = b.generation
    ∧ b2.cells.length = b.cells.length
    ∧ ∀ i : Nat, (b2.cells[i]?).map (fun c => c.state)
        = (b.cells[i]?).map (fun c => c.state) := by
  unfold Board.update_live_neighbor_counts at h
  cases hseq : sequenceOpt ((List.range b.cells.length).map
      (fun i => b.live_neighbor_count i)) with
  | none => rw [hseq] at h; simp at h
  | some counts =>
      rw [hseq] at h
      simp only [Option.map_some', Option.some.injEq] at h
      have hclen : counts.length = b.cells.length := by
        have := sequenceOpt_length _ _ hseq
        simpa using this
      refine ⟨by rw [← h], by rw [← h], by rw [← h], ?_, ?_⟩
      · rw [← h]
        simp [List.length_zipWith, hclen]
      · intro i
        rw [← h]
        simp only [List.getElem?_zipWith]
        by_cases hi : i < b.cells.length
        · rw [List.getElem?_eq_getElem hi,
            List.getElem?_eq_getElem (by omega : i < counts.length)]
          rfl
        · rw [List.getElem?_eq_none (by omega : b.cells.length ≤ i),
            List.getElem?_eq_none (by omega : counts.length ≤ i)]

/-- C10: `step()` changes only cell states — every cell's `neighbor_count`
and the board's width, height and generation are unchanged — and
`update_live_neighbor_counts()` changes only cell neighbor counts — every
cell's state and the board's width, height and generation are unchanged;
neither resizes the cell vector. -/
theorem c10_frame (b : Board) :
    ((Board.step b).width = b.width ∧ (Board.step b).height = b.height
      ∧ (Board.step b).generation = b.generation
      ∧ (Board.step b).cells.length = b.cells.length
      ∧ ∀ i : Nat, ((Board.step b).cells[i]?).map (fun c => c.neighbor_count)
          = (b.cells[i]?).map (fun c => c.neighbor_count))
    ∧ ∀ b2, b.update_live_neighbor_counts = some b2 →
        (b2.width = b.width ∧ b2.height = b.height ∧ b2.generation = b.generation
          ∧ b2.cells.length = b.cells.length
          ∧ ∀ i : Nat, (b2.cells[i]?).map (fun c => c.state)
              = (b.cells[i]?).map (fun c => c.state)) := by
  constructor
  · refine ⟨rfl, rfl, rfl, by simp [Board.step], ?_⟩
    intro i
    simp [Board.step, List.getElem?_map, Option.map_map]
    rfl
  · intro b2 h
    exact update_frame_fields b b2 h

/-- Witness for C10 at a concrete input: updating the 3×3 center-alive board
succeeds, preserves cell 0's state and the step preserves cell 0's
neighbor count. -/
theorem c10_frame_witness :
    bW3c.update_live_neighbor_counts = some bW3cU
    ∧ (bW3cU.cells[0]?).map (fun c => c.state)
        = (bW3c.cells[0]?).map (fun c => c.state)
    ∧ ((Board.step bW3c).cells[0]?).map (fun c => c.neighbor_count)
        = (bW3c.cells[0]?).map (fun c => c.neighbor_count)
    ∧ bW3cU.generation = bW3c.generation := by
  have e : bW3c.update_live_neighbor_counts = some bW3cU := rfl
  obtain ⟨hstep, hupd⟩ := c10_frame bW3c
  obtain ⟨hw, hh, hg, hl, hst⟩ := hupd bW3cU e
  exact ⟨e, hst 0, hstep.2.2.2.2 0, hg⟩

/-- The seed-placing loop never touches generation, width, height or the
vector length (each write is `List.set`). -/
theorem placeSeeds_fields :
    ∀ (l : List (Nat × Nat)) (b b2 : Board), placeSeeds b l = some b2 →
      b2.generation = b.generation ∧ b2.width = b.width ∧ b2.height = b.height
      ∧ b2.cells.length = b.cells.length
  | [], b, b2, h => by
      simp only [placeSeeds, Option.some.injEq] at h
      simp [← h]
  | (x, y) :: rest, b, b2, h => by
      unfold placeSeeds at h
      split at h
      · have ih := placeSeeds_fields rest _ b2 h
        simpa [List.length_set] using ih
      · exact absurd h (by simp)

/-- Fields of a freshly constructed board: generation 0, the given
dimensions, and `(width * height) % 2^64` cells. -/
theorem new_fields (w h : Nat) (b : Board) (hnew : Board.new w h = some b) :
    b.generation = 0 ∧ b.width = w ∧ b.height = h
    ∧ b.cells.length = (w * h) % USIZE_MOD := by
  unfold Board.new Board.add_glider_gun at hnew
  have hf := placeSeeds_fields gliderGunSeeds _ b hnew
  simpa [List.length_replicate] using hf

/-- One tick (the `draw` mutation) bumps the generation by exactly one,
modulo `2^64`, and preserves the cell-vector length. -/
theorem tick_fields (b b2 : Board) (h : b.tick = some b2) :
    b2.generation = (b.generation + 1) % USIZE_MOD
    ∧ b2.cells.length = b.cells.length := by
  unfold Board.tick at h
  cases hu : Board.update_live_neighbor_counts
      { b with generation := (b.generation + 1) % USIZE_MOD } with
  | none => rw [hu] at h; simp at h
  | some u =>
      rw [hu] at h
      simp only [Option.map_some', Option.some.injEq] at h
      obtain ⟨hw, hh, hg, hl, _⟩ := update_frame_fields _ _ hu
      constructor
      · rw [← h]
        show (Board.step u).generation = (b.generation + 1) % USIZE_MOD
        exact hg
      · rw [← h]
        show (Board.step u).cells.length = b.cells.length
        calc (Board.step u).cells.length = u.cells.length := by simp [Board.step]
        _ = b.cells.length := hl

/-- C3: the glider-gun seed `(25, 1)` is out of bounds on a 20×20 grid
(`25 ≥ 20 = width`), yet `Board::new(20, 20)` completes without any
diagnostic and silently marks the cell at linear index `45 = 2*20 + 5` —
position `(5, 2)`, which is not a seed coordinate — `Alive`, contradicting
the spec's fail-fast requirement. -/
theorem c3_silent_misplacement :
    (25, 1) ∈ gliderGunSeeds ∧ 25 ≥ 20
    ∧ (Board.new 20 20).isSome = true
    ∧ ((Board.new 20 20).bind (fun b => b.cells[45]?)).map (fun c => c.state)
        = some CellState.Alive
    ∧ (5, 2) ∉ gliderGunSeeds ∧ 45 = 2 * 20 + 5 := by
  refine ⟨by decide, by decide, by decide, by decide, by decide, by decide⟩

/-- C7 (amended): the generation counter starts at 0 on a freshly
constructed board; each tick sets it to `(generation + 1) % 2^64` (the
`usize` increment wraps in release mode), so after `N` ticks from a fresh
board it equals `N % 2^64` — in particular exactly `N` for every
`N < 2^64`, i.e. for every physically realizable run; at `N = 2^64` it
wraps back to 0. -/
theorem c7_generation :
    (∀ (w h : Nat) (b : Board), Board.new w h = some b → b.generation = 0)
    ∧ (∀ b b2 : Board, b.tick = some b2
        → b2.generation = (b.generation + 1) % USIZE_MOD)
    ∧ (∀ (N : Nat) (b b2 : Board), Board.tickN N b = some b2
        → b.generation < USIZE_MOD
        → b2.generation = (b.generation + N) % USIZE_MOD)
    ∧ (∀ (N w h : Nat) (b b2 : Board), Board.new w h = some b
        → Board.tickN N b = some b2 → N < USIZE_MOD → b2.generation = N) := by
  have hthird : ∀ (N : Nat) (b b2 : Board), Board.tickN N b = some b2
      → b.generation < USIZE_MOD
      → b2.generation = (b.generation + N) % USIZE_MOD := by
    intro N
    induction N with
    | zero =>
        intro b b2 h hg
        simp only [Board.tickN, Option.some.injEq] at h
        rw [← h, Nat.add_zero, Nat.mod_eq_of_lt hg]
    | succ n ih =>
        intro b b2 h hg
        unfold Board.tickN at h
        cases ht : b.tick with
        | none => rw [ht] at h; simp at h
        | some b1 =>
            rw [ht] at h
            simp only [Option.some_bind] at h
            have h1 := (tick_fields b b1 ht).1
            have hg1 : b1.generation < USIZE_MOD := by
              rw [h1]
              exact Nat.mod_lt _ (by norm_num [USIZE_MOD])
            have h2 := ih b1 b2 h hg1
            rw [h2, h1, Nat.mod_add_mod]
            congr 1
            omega
  refine ⟨fun w h b hnew => (new_fields w h b hnew).1,
    fun b b2 h => (tick_fields b b2 h).1, hthird, ?_⟩
  intro N w h b b2 hnew ht hN
  have hg0 := (new_fields w h b hnew).1
  have := hthird N b b2 ht (by rw [hg0]; norm_num [USIZE_MOD])
  rw [this, hg0, Nat.zero_add, Nat.mod_eq_of_lt hN]

/-- Witness for C7 at a concrete input: constructing a 15×10 board and
ticking twice yields generation 2. -/
theorem c7_generation_witness :
    Board.new 15 10 = some b15 ∧ Board.tickN 2 b15 = some b15T2
    ∧ b15T2.generation = 2 := by
  have h1 : Board.new 15 10 = some b15 := rfl
  have h2 : Board.tickN 2 b15 = some b15T2 := rfl
  exact ⟨h1, h2, c7_generation.2.2.2 2 15 10 b15 b15T2 h1 h2 (by norm_num [USIZE_MOD])⟩

/-- C9 (amended): after every successful construction the board has
`cells.length = (width * height) % 2^64` — equal to `width * height`
whenever the product does not overflow `usize` — and the length is preserved
by `step`, by `update_live_neighbor_counts` and by a full tick; no operation
resizes the cell vector. -/
theorem c9_cells_length :
    (∀ (w h : Nat) (b : Board), Board.new w h = some b →
        b.width = w ∧ b.height = h ∧ b.cells.length = (w * h) % USIZE_MOD)
    ∧ (∀ b : Board, (Board.step b).cells.length = b.cells.length)
    ∧ (∀ b b2 : Board, b.update_live_neighbor_counts = some b2
        → b2.cells.length = b.cells.length)
    ∧ (∀ b b2 : Board, b.tick = some b2 → b2.cells.length = b.cells.length) := by
  refine ⟨?_, ?_, ?_, ?_⟩
  · intro w h b hnew
    obtain ⟨hg, hw, hh, hl⟩ := new_fields w h b hnew
    exact ⟨hw, hh, hl⟩
  · intro b
    simp [Board.step]
  · intro b b2 h
    exact (update_frame_fields b b2 h).2.2.2.1
  · intro b b2 h
    exact (tick_fields b b2 h).2

/-- Witness for C9 at a concrete input: `Board::new(15, 10)` has
`150 = (15*10) % 2^64` cells, and one tick keeps that length. -/
theorem c9_cells_length_witness :
    Board.new 15 10 = some b15 ∧ b15.cells.length = (15 * 10) % USIZE_MOD
    ∧ Board.tickN 2 b15 = some b15T2 ∧ b15T2.cells.length = b15.cells.length := by
  have h1 : Board.new 15 10 = some b15 := rfl
  have h2 : Board.tickN 2 b15 = some b15T2 := rfl
  refine ⟨h1, (c9_cells_length.1 15 10 b15 h1).2.2, h2, ?_⟩
  have ha : b15.tick = some ((b15.tick).getD emptyBoard) := rfl
  have hb : Board.tickN 1 ((b15.tick).getD emptyBoard) = some b15T2 := rfl
  have hc : ((b15.tick).getD emptyBoard).tick = some b15T2 := rfl
  calc b15T2.cells.length = ((b15.tick).getD emptyBoard).cells.length :=
        c9_cells_length.2.2.2 _ _ hc
  _ = b15.cells.length := c9_cells_length.2.2.2 _ _ ha

/-- C9 counterexample: in release-mode Rust the product `100 * h` for
`h = 184467440737095526` wraps modulo `2^64` to 984, so `Board::new`
allocates 984 cells, every glider-gun seed index fits, construction
completes — and `cells.length = 984 ≠ width * height`. -/
theorem c9_cex :
    (Board.new 100 184467440737095526).map (fun b => b.cells.length) = some 984
    ∧ 100 * 184467440737095526 ≠ 984 := by
  constructor
  · decide
  · decide

theorem blockCells_eq (w h a b0 : Nat) :
    blockCells w h a b0
      = (List.range (w * h)).map
          (fun i => if (i % w = a ∨ i % w = a + 1) ∧ (i / w = b0 ∨ i / w = b0 + 1)
                    then Cell.alive else Cell.dead) := rfl

theorem blockCells_length (w h a b0 : Nat) : (blockCells w h a b0).length = w * h := by
  rw [blockCells_eq, List.length_map, List.length_range]

theorem blockCells_config (w h a b0 g : Nat) :
    blockConfig w h a b0
      { generation := g, width := w, height := h, cells := blockCells w h a b0 } := by
  refine ⟨rfl, rfl, blockCells_length w h a b0, ?_⟩
  intro i hi
  have hi2 : i < (List.range (w * h)).length := by
    simpa [blockCells_length] using hi
  show ((blockCells w h a b0)[i]).state = _
  unfold blockCells
  rw [List.getElem_map, List.getElem_range]
  by_cases hc : (i % w = a ∨ i % w = a + 1) ∧ (i / w = b0 ∨ i / w = b0 + 1)
  · rw [if_pos hc, if_pos hc]
    rfl
  · rw [if_neg hc, if_neg hc]
    rfl

attribute [irreducible] blockCells

/-- Counting over the 8 Moore offsets of a product membership pattern: a cell
whose own row and column both lie in the window sees exactly 3 block cells
(its three block mates); any other cell sees at most 2, never 3. -/
theorem count_core (u1 u2 u3 v1 v2 v3 : Bool)
    (hu : validProfile u1 u2 u3 = true) (hv : validProfile v1 v2 v3 = true) :
    if u2 && v2 then
      List.count true [u1 && v1, u2 && v1, u3 && v1, u1 && v2, u3 && v2,
        u1 && v3, u2 && v3, u3 && v3] = 3
    else
      List.count true [u1 && v1, u2 && v1, u3 && v1, u1 && v2, u3 && v2,
        u1 && v3, u2 && v3, u3 && v3] ≠ 3 := by
  revert hu hv
  revert u1 u2 u3 v1 v2 v3
  decide

/-- Three consecutive integers meet a two-element window only in one of the
five valid profiles. -/
theorem window_profile (x : Int) (a : Nat) :
    validProfile (decide (x - 1 = (a : Int) ∨ x - 1 = (a : Int) + 1))
      (decide (x = (a : Int) ∨ x = (a : Int) + 1))
      (decide (x + 1 = (a : Int) ∨ x + 1 = (a : Int) + 1)) = true := by
  by_cases h1 : x - 1 = (a : Int) ∨ x - 1 = (a : Int) + 1 <;>
    by_cases h2 : x = (a : Int) ∨ x = (a : Int) + 1 <;>
      by_cases h3 : x + 1 = (a : Int) ∨ x + 1 = (a : Int) + 1 <;>
        simp [h1, h2, h3, validProfile] <;> omega

theorem isAliveState_ite (C : Prop) [Decidable C] :
    isAliveState (if C then CellState.Alive else CellState.Dead) = decide C := by
  by_cases hc : C
  · rw [if_pos hc]
    simp [isAliveState, hc]
  · rw [if_neg hc]
    simp [isAliveState, hc]

/-- On a board in block configuration (block strictly inside the grid),
the spec-side aliveness test at any position is exactly membership of the
position in the block. -/
theorem iba_block (W H A B : Nat) (brd : Board)
    (hcfg : blockConfig W H A B brd)
    (hA1 : 1 ≤ A) (hA2 : A + 3 ≤ W) (hB1 : 1 ≤ B) (hB2 : B + 3 ≤ H)
    (u v : Int) :
    inBoundsAlive brd u v
      = (decide (u = (A : Int) ∨ u = (A : Int) + 1)
          && decide (v = (B : Int) ∨ v = (B : Int) + 1)) := by
  obtain ⟨hw, hh, hlen, hstate⟩ := hcfg
  subst hw
  subst hh
  by_cases hb : 0 ≤ u ∧ u < (brd.width : Int) ∧ 0 ≤ v ∧ v < (brd.height : Int)
  · have hun : u.toNat < brd.width := by omega
    have hvn : v.toNat < brd.height := by omega
    have hidx : v.toNat * brd.width + u.toNat < brd.cells.length := by
      rw [hlen]
      calc v.toNat * brd.width + u.toNat < (v.toNat + 1) * brd.width := by
            rw [Nat.add_mul, Nat.one_mul]; omega
      _ ≤ brd.height * brd.width := Nat.mul_le_mul_right _ (by omega)
      _ = brd.width * brd.height := Nat.mul_comm _ _
    have hmod : (v.toNat * brd.width + u.toNat) % brd.width = u.toNat := by
      rw [Nat.add_comm, Nat.add_mul_mod_self_right, Nat.mod_eq_of_lt hun]
    have hdiv : (v.toNat * brd.width + u.toNat) / brd.width = v.toNat := by
      rw [Nat.add_comm, Nat.add_mul_div_right _ _ (by omega : 0 < brd.width),
        Nat.div_eq_of_lt hun, Nat.zero_add]
    have hst := hstate (v.toNat * brd.width + u.toNat) hidx
    rw [hmod, hdiv] at hst
    unfold inBoundsAlive
    rw [List.getElem?_eq_getElem hidx]
    have e1 : decide (0 ≤ u) = true := decide_eq_true hb.1
    have e2 : decide (u < (brd.width : Int)) = true := decide_eq_true hb.2.1
    have e3 : decide (0 ≤ v) = true := decide_eq_true hb.2.2.1
    have e4 : decide (v < (brd.height : Int)) = true := decide_eq_true hb.2.2.2
    simp only [e1, e2, e3, e4, Bool.true_and]
    rw [hst, isAliveState_ite, Bool.decide_and]
    have hiff1 : (u.toNat = A ∨ u.toNat = A + 1) ↔ (u = (A : Int) ∨ u = (A : Int) + 1) := by
      omega
    have hiff2 : (v.toNat = B ∨ v.toNat = B + 1) ↔ (v = (B : Int) ∨ v = (B : Int) + 1) := by
      omega
    rw [decide_eq_decide.mpr hiff1, decide_eq_decide.mpr hiff2]
  · have hfalse : inBoundsAlive brd u v = false := by
      unfold inBoundsAlive
      rcases (by omega :
          ¬(0 ≤ u) ∨ ¬(u < (brd.width : Int)) ∨ ¬(0 ≤ v) ∨ ¬(v < (brd.height : Int)))
        with hx | hx | hx | hx <;> simp [hx]
    rw [hfalse]
    rcases (by omega :
        ¬(u = (A : Int) ∨ u = (A : Int) + 1) ∨ ¬(v = (B : Int) ∨ v = (B : Int) + 1))
      with hx | hx <;> simp [hx]

/-- On a board in interior-block configuration, a cell's spec-side Moore
count is 3 exactly when the cell belongs to the block. -/
theorem spec_count_block (W H A B : Nat) (brd : Board)
    (hcfg : blockConfig W H A B brd)
    (hA1 : 1 ≤ A) (hA2 : A + 3 ≤ W) (hB1 : 1 ≤ B) (hB2 : B + 3 ≤ H)
    (x y : Nat) :
    spec_neighbor_count brd x y = 3
      ↔ ((x = A ∨ x = A + 1) ∧ (y = B ∨ y = B + 1)) := by
  rw [spec_neighbor_count_explicit]
  simp only [iba_block W H A B brd hcfg hA1 hA2 hB1 hB2]
  have hcc := count_core _ _ _ _ _ _ (window_profile (x : Int) A) (window_profile (y : Int) B)
  by_cases hm : (x = A ∨ x = A + 1) ∧ (y = B ∨ y = B + 1)
  · have hbm : (decide ((x : Int) = (A : Int) ∨ (x : Int) = (A : Int) + 1)
        && decide ((y : Int) = (B : Int) ∨ (y : Int) = (B : Int) + 1)) = true := by
      simp only [Bool.and_eq_true, decide_eq_true_eq]
      omega
    rw [if_pos hbm] at hcc
    exact iff_of_true hcc hm
  · have hbm : ¬((decide ((x : Int) = (A : Int) ∨ (x : Int) = (A : Int) + 1)
        && decide ((y : Int) = (B : Int) ∨ (y : Int) = (B : Int) + 1)) = true) := by
      simp only [Bool.and_eq_true, decide_eq_true_eq]
      omega
    rw [if_neg hbm] at hcc
    exact iff_of_false hcc hm

/-- On a well-formed board with `i32`-sized dimensions, one tick is exactly:
bump the generation, write every cell's spec-side Moore count, then apply the
transition to every cell. -/
theorem tick_char (b : Board) (hw : b.width < 2147483648) (hh : b.height < 2147483648)
    (hlen : b.cells.length = b.width * b.height) :
    b.tick = some (Board.step
      { b with
        generation := (b.generation + 1) % USIZE_MOD,
        cells := b.cells.zipWith (fun cell n => { cell with neighbor_count := n })
          ((List.range b.cells.length).map
            (fun i => spec_neighbor_count b (i % b.width) (i / b.width))) }) := by
  unfold Board.tick
  rw [update_char { b with generation := (b.generation + 1) % USIZE_MOD } hw hh hlen]
  rfl

/-- On a well-formed board with `i32`-sized dimensions every tick succeeds,
the dimensions and length are preserved, and after `N` ticks the generation
is the start plus `N`, modulo `2^64`. -/
theorem tickN_total : ∀ (N : Nat) (b : Board), b.width < 2147483648
    → b.height < 2147483648 → b.cells.length = b.width * b.height
    → b.generation < USIZE_MOD
    → ∃ b2, Board.tickN N b = some b2
        ∧ b2.width = b.width ∧ b2.height = b.height
        ∧ b2.cells.length = b.cells.length
        ∧ b2.generation = (b.generation + N) % USIZE_MOD
  | 0, b, _, _, _, hg =>
      ⟨b, rfl, rfl, rfl, rfl, by rw [Nat.add_zero, Nat.mod_eq_of_lt hg]⟩
  | N + 1, b, hw, hh, hlen, hg => by
      have htick := tick_char b hw hh hlen
      have hlen1 : (Board.step
          { b with
            generation := (b.generation + 1) % USIZE_MOD,
            cells := b.cells.zipWith (fun cell n => { cell with neighbor_count := n })
              ((List.range b.cells.length).map
                (fun i => spec_neighbor_count b (i % b.width) (i / b.width))) }
          ).cells.length = b.cells.length := by
        simp only [Board.step, List.length_map, List.length_zipWith, List.length_range]
        exact Nat.min_self _
      obtain ⟨b2, ht2, hw2, hh2, hl2, hg2⟩ := tickN_total N
        (Board.step
          { b with
            generation := (b.generation + 1) % USIZE_MOD,
            cells := b.cells.zipWith (fun cell n => { cell with neighbor_count := n })
              ((List.range b.cells.length).map
                (fun i => spec_neighbor_count b (i % b.width) (i / b.width))) })
        hw hh (by rw [hlen1]; exact hlen)
        (by
          show (b.generation + 1) % USIZE_MOD < USIZE_MOD
          exact Nat.mod_lt _ (by norm_num [USIZE_MOD]))
      refine ⟨b2, ?_, hw2, hh2, by rw [hl2, hlen1], ?_⟩
      · show (b.tick).bind (Board.tickN N) = some b2
        rw [htick]
        simpa using ht2
      · rw [hg2]
        show ((b.generation + 1) % USIZE_MOD + N) % USIZE_MOD
          = (b.generation + (N + 1)) % USIZE_MOD
        rw [Nat.mod_add_mod]
        congr 1
        omega

/-- C7 counterexample: on the freshly constructed 15×10 board, `2^64` ticks
complete and leave the generation counter at 0, not `2^64`: the `usize`
increment `generation += 1` wraps in release mode, so the counter also
decreases (from `2^64 - 1` to 0) on that tick. -/
theorem c7_cex :
    Board.new 15 10 = some b15
    ∧ (Board.tickN USIZE_MOD b15).map (fun b => b.generation) = some 0
    ∧ (0 : Nat) ≠ USIZE_MOD := by
  have h1 : Board.new 15 10 = some b15 := rfl
  have hw : b15.width = 15 := rfl
  have hh : b15.height = 10 := rfl
  have hg0 : b15.generation = 0 := rfl
  obtain ⟨b2, ht, _, _, _, hg⟩ := tickN_total USIZE_MOD b15
    (by rw [hw]; norm_num) (by rw [hh]; norm_num) (by rfl)
    (by rw [hg0]; norm_num [USIZE_MOD])
  refine ⟨h1, ?_, by norm_num [USIZE_MOD]⟩
  rw [ht]
  simp only [Option.map_some', Option.some.injEq]
  rw [hg, hg0, Nat.zero_add, Nat.mod_self]

/-- Two boards in the same block configuration have pointwise equal cell
states. -/
theorem blockConfig_states (W H A B : Nat) (b b2 : Board)
    (hc : blockConfig W H A B b) (hc2 : blockConfig W H A B b2) :
    ∀ i : Nat, (b2.cells[i]?).map (fun c => c.state)
      = (b.cells[i]?).map (fun c => c.state) := by
  intro i
  by_cases hi : i < b2.cells.length
  · have hi2 : i < b.cells.length := by
      rw [hc.2.2.1]
      rw [hc2.2.2.1] at hi
      exact hi
    rw [List.getElem?_eq_getElem hi, List.getElem?_eq_getElem hi2]
    simp only [Option.map_some']
    rw [hc2.2.2.2 i hi, hc.2.2.2 i hi2]
  · have hi2 : ¬ i < b.cells.length := by
      rw [hc.2.2.1]
      rw [hc2.2.2.1] at hi
      exact hi
    rw [List.getElem?_eq_none (by omega), List.getElem?_eq_none (by omega)]

/-- A single tick sends an interior-block board to an interior-block board:
block cells have count 3 and stay `Alive`, all others have count ≠ 3 and stay
`Dead`. -/
theorem tick_block (W H A B : Nat) (brd : Board)
    (hw31 : W < 2147483648) (hh31 : H < 2147483648)
    (hA1 : 1 ≤ A) (hA2 : A + 3 ≤ W) (hB1 : 1 ≤ B) (hB2 : B + 3 ≤ H)
    (hcfg : blockConfig W H A B brd) :
    ∃ brd2, brd.tick = some brd2 ∧ blockConfig W H A B brd2 := by
  obtain ⟨hw, hh, hlen, hstate⟩ := hcfg
  have htick := tick_char brd (by rw [hw]; exact hw31) (by rw [hh]; exact hh31)
    (by rw [hlen, hw, hh])
  refine ⟨_, htick, ?_, ?_, ?_, ?_⟩
  · exact hw
  · exact hh
  · show (Board.step _).cells.length = W * H
    simp only [Board.step, List.length_map, List.length_zipWith, List.length_range]
    rw [Nat.min_self, hlen]
  · intro i hi
    have hlenstep : (Board.step
        { brd with
          generation := (brd.generation + 1) % USIZE_MOD,
          cells := brd.cells.zipWith (fun cell n => { cell with neighbor_count := n })
            ((List.range brd.cells.length).map
              (fun j => spec_neighbor_count brd (j % brd.width) (j / brd.width))) }
        ).cells.length = brd.cells.length := by
      simp only [Board.step, List.length_map, List.length_zipWith, List.length_range]
      exact Nat.min_self _
    have hi' : i < brd.cells.length := by
      rw [hlenstep] at hi
      exact hi
    have hir : i < (List.range brd.cells.length).length := by
      rw [List.length_range]
      exact hi'
    show ((Board.step _).cells[i]).state = _
    simp only [Board.step]
    rw [List.getElem_map, List.getElem_zipWith, List.getElem_map, List.getElem_range]
    show stepCellState ((brd.cells[i]).state)
        (spec_neighbor_count brd (i % brd.width) (i / brd.width)) = _
    rw [hstate i hi']
    have hcfg' : blockConfig W H A B brd := ⟨hw, hh, hlen, hstate⟩
    by_cases hm : (i % W = A ∨ i % W = A + 1) ∧ (i / W = B ∨ i / W = B + 1)
    · rw [if_pos hm]
      have h3 : spec_neighbor_count brd (i % brd.width) (i / brd.width) = 3 := by
        rw [hw]
        exact (spec_count_block W H A B brd hcfg' hA1 hA2 hB1 hB2 _ _).mpr hm
      rw [h3]
      rfl
    · rw [if_neg hm]
      have h3 : spec_neighbor_count brd (i % brd.width) (i / brd.width) ≠ 3 := by
        rw [hw]
        exact fun hx => hm ((spec_count_block W H A B brd hcfg' hA1 hA2 hB1 hB2 _ _).mp hx)
      simp [stepCellState, h3]

/-- C4 (amended): on every board — with width and height below `2^31`, so
that neighbor counting is exact — whose `Alive` cells form exactly one 2×2
block not touching any grid edge, with every other cell `Dead`, any number
`N` of ticks (`update_live_neighbor_counts` then `step`, as performed by
`draw`) succeeds and leaves every cell's state unchanged: the four block
cells stay `Alive` and every other cell stays `Dead`. -/
theorem c4_block_still_life (W H A B : Nat) (brd : Board)
    (hw31 : W < 2147483648) (hh31 : H < 2147483648)
    (hA1 : 1 ≤ A) (hA2 : A + 3 ≤ W) (hB1 : 1 ≤ B) (hB2 : B + 3 ≤ H)
    (hcfg : blockConfig W H A B brd) (N : Nat) :
    ∃ brd2, Board.tickN N brd = some brd2 ∧ blockConfig W H A B brd2
      ∧ ∀ i : Nat, (brd2.cells[i]?).map (fun c => c.state)
          = (brd.cells[i]?).map (fun c => c.state) := by
  induction N generalizing brd with
  | zero => exact ⟨brd, rfl, hcfg, fun i => rfl⟩
  | succ n ih =>
      obtain ⟨b1, ht, hc1⟩ := tick_block W H A B brd hw31 hh31 hA1 hA2 hB1 hB2 hcfg
      obtain ⟨b2, ht2, hc2, hst2⟩ := ih b1 hc1
      refine ⟨b2, ?_, hc2, ?_⟩
      · show (brd.tick).bind (Board.tickN n) = some b2
        rw [ht]
        simpa using ht2
      · intro i
        exact (hst2 i).trans (blockConfig_states W H A B brd b1 hcfg hc1 i)

/-- Witness for C4 at a concrete input: three ticks on the 5×5 block board
leave cell `(1, 1)` (index 6) `Alive` and every state unchanged. -/
theorem c4_block_still_life_witness :
    Board.tickN 3 bB5 = some bB5T
    ∧ (bB5T.cells[6]?).map (fun c => c.state) = (bB5.cells[6]?).map (fun c => c.state)
    ∧ (bB5.cells[6]?).map (fun c => c.state) = some CellState.Alive := by
  have h : Board.tickN 3 bB5 = some bB5T := rfl
  obtain ⟨b2, ht, hc2, hst⟩ := c4_block_still_life 5 5 1 1 bB5 (by norm_num) (by norm_num)
    (by norm_num) (by norm_num) (by norm_num) (by norm_num)
    (by unfold blockConfig; decide) 3
  have hb : b2 = bB5T := Option.some.inj (ht.symm.trans h)
  subst hb
  exact ⟨h, hst 6, by decide⟩

/-- `step` on a per-cell view: the state after `step` is the transition of
the old state at the cached count. -/
theorem step_state_getElem (b : Board) (i : Nat) :
    ((Board.step b).cells[i]?).map (fun x => x.state)
      = (b.cells[i]?).map (fun x => stepCellState x.state x.neighbor_count) := by
  simp [Board.step, List.getElem?_map, Option.map_map]
  rfl

/-- On any board whose `width as i32` wraps to `-2^31`, a tick computes
count 0 for every cell, so cell `i` ends in the transition of its old state
at count 0. -/
theorem tick_result_state (b : Board) (i : Nat) (c : Cell)
    (hwrap : usizeToI32 b.width = -2147483648)
    (hc : b.cells[i]? = some c) (hi : i < b.cells.length) :
    ((b.tick).bind (fun x => x.cells[i]?)).map (fun x => x.state)
      = some (stepCellState c.state 0) := by
  have hwrap1 : usizeToI32 ({ b with generation := (b.generation + 1) % USIZE_MOD } : Board).width
      = -2147483648 := hwrap
  have hupd : Board.update_live_neighbor_counts
      { b with generation := (b.generation + 1) % USIZE_MOD }
      = some { b with
          generation := (b.generation + 1) % USIZE_MOD,
          cells := b.cells.zipWith (fun cell n => { cell with neighbor_count := n })
            ((List.range b.cells.length).map (fun _ => (0 : Nat))) } := by
    unfold Board.update_live_neighbor_counts
    rw [sequenceOpt_map_eq _ (fun _ => (0 : Nat)) _
      (fun j _ => live_zero_of_wrap _ hwrap1 j)]
    rfl
  unfold Board.tick
  rw [hupd]
  simp only [Option.map_some', Option.some_bind]
  rw [step_state_getElem]
  rw [show ({ b with
      generation := (b.generation + 1) % USIZE_MOD,
      cells := b.cells.zipWith (fun cell n => { cell with neighbor_count := n })
        ((List.range b.cells.length).map (fun _ => (0 : Nat))) } : Board).cells
    = b.cells.zipWith (fun cell n => { cell with neighbor_count := n })
        ((List.range b.cells.length).map (fun _ => (0 : Nat))) from rfl]
  rw [List.getElem?_zipWith, hc, List.getElem?_map, List.getElem?_range hi]
  rfl

/-- C4 counterexample: the width-`2^31` board holds exactly one interior 2×2
block of `Alive` cells, yet after a single tick the block cell `(1, 1)`
(linear index `2^31 + 1`) is `Dying(8)`, not `Alive`: the wrapped
`width as i32` makes every neighbor count 0, so the `Alive` cells starve. -/
theorem c4_cex :
    blockConfig 2147483648 5 1 1 bBig4
    ∧ (1 ≤ 1 ∧ 1 + 3 ≤ 2147483648 ∧ 1 ≤ 1 ∧ 1 + 3 ≤ 5)
    ∧ (bBig4.cells[2147483649]?).map (fun c => c.state) = some CellState.Alive
    ∧ ((bBig4.tick).bind (fun x => x.cells[2147483649]?)).map (fun x => x.state)
        = some (CellState.Dying 8)
    ∧ CellState.Dying 8 ≠ CellState.Alive := by
  have hcells4 : bBig4.cells = blockCells 2147483648 5 1 1 := rfl
  have hwrap4 : usizeToI32 bBig4.width = -2147483648 := by
    rw [show bBig4.width = 2147483648 from rfl]
    norm_num [usizeToI32]
  have hc4 : bBig4.cells[2147483649]? = some Cell.alive := by
    rw [hcells4, blockCells_eq]
    rw [List.getElem?_map,
      List.getElem?_range (by norm_num : (2147483649 : Nat) < 2147483648 * 5)]
    simp only [Option.map_some']
    rw [if_pos (by norm_num)]
  have hi4 : 2147483649 < bBig4.cells.length := by
    rw [hcells4, blockCells_length]
    norm_num
  refine ⟨blockCells_config 2147483648 5 1 1 0, by norm_num, ?_, ?_, by decide⟩
  · rw [hc4]
    rfl
  · exact (tick_result_state bBig4 2147483649 Cell.alive hwrap4 hc4 hi4).trans (by decide)

end RustyLife
